import Mathlib

/-!
Verification of the encoding core of a small two-pass assembler
(`src/assembler/instruction.py`).

The source is Python working on arbitrary-precision integers, so the
embedding uses `ℤ` with the exact Python semantics of the operators that
appear in the source:

* `a << k`  is `a * 2 ^ k` (for every sign of `a`);
* `a & (2 ^ k - 1)` is `a % 2 ^ k` (Euclidean remainder, which is what
  Python's `&` with an all-ones mask computes on two's-complement
  arbitrary-precision integers, also for negative `a`);
* `a | b`   is `Int.lor`, Mathlib's two's-complement bitwise or, which
  agrees with Python's `|` on every pair of integers;
* `a // b`  (Python floor division) is `Int.ediv`, i.e. Lean's `/` on `ℤ`,
  which agrees with floor division whenever the divisor is positive (the
  only divisor in the source is `4`).

Register operands are kept as strings, exactly as in the source, and
`int(operand[1:])` is modelled by a character-level parser for Python
integer literals.
-/

namespace Assembler

/-- Value of a decimal digit list read left to right with accumulator
`acc`, failing on the first non-digit character.  This is the digit loop
at the heart of Python's `int` applied to a string of digits. -/
def decDigitsAux : List Char → ℕ → Option ℕ
  | [], acc => some acc
  | c :: cs, acc =>
      if c.isDigit then decDigitsAux cs (acc * 10 + (c.toNat - 48)) else none

/-- A nonempty run of decimal digits read as a natural number; `none` on
the empty list or on any non-digit character. -/
def decDigits : List Char → Option ℕ
  | [] => none
  | c :: cs => decDigitsAux (c :: cs) 0

/-- Models Python's `int(s)` on the character list of `s`, restricted to
the literal shapes this development quantifies over: an optional single
leading `+` or `-` sign followed by one or more ASCII decimal digits.
Python's `int` additionally strips surrounding whitespace, allows
underscore digit separators and accepts non-ASCII decimal digits; such
strings are outside this model, which therefore under-accepts relative
to the program.  On every string it does accept, Python accepts too,
with the same value, so theorems only ever use acceptance by this model
as a hypothesis; no theorem characterizes the program's full acceptance
set through it.  Returns `none` where Python raises `ValueError`. -/
def pyIntChars : List Char → Option ℤ
  | [] => none
  | c :: cs =>
      if c = '-' then (decDigits cs).map (fun n => -(n : ℤ))
      else if c = '+' then (decDigits cs).map (fun n => (n : ℤ))
      else (decDigits (c :: cs)).map (fun n => (n : ℤ))

/-- Models the Python expression `int(name[1:])` used by every register
operand: drop the first character of the operand string and parse the
rest as a Python integer literal. -/
def regNumber (name : String) : Option ℤ :=
  pyIntChars (name.toList.drop 1)

/-- Python `a << k` on arbitrary-precision integers. -/
def pyShl (a : ℤ) (k : ℕ) : ℤ := a * 2 ^ k

/-- Python `a & (2 ^ k - 1)`: on two's-complement arbitrary-precision
integers this is the Euclidean remainder modulo `2 ^ k`. -/
def pyMask (a : ℤ) (k : ℕ) : ℤ := a % 2 ^ k

/-- Python `a | b`: two's-complement bitwise or. -/
def pyOr (a b : ℤ) : ℤ := Int.lor a b

/-- Python `a >> k` on arbitrary-precision integers: floor division by
`2 ^ k` (used only to state the round-trip property of the spec). -/
def pyShr (a : ℤ) (k : ℕ) : ℤ := a / 2 ^ k

/-- The two error conditions the encoding core can raise.  The source
raises Python `ValueError`s; the spec names the two kinds
`InvalidRegister` (a register operand whose `int(name[1:])` fails) and
`UnresolvedLabel` (a branch whose label is absent from the table; the
source's message carries the label and the instruction's source line
number, modelled here as fields of the error value). -/
inductive EncodeError where
  | invalidRegister (operand : String)
  | unresolvedLabel (label : String) (lineNumber : ℕ)
  deriving DecidableEq, Repr

instance : DecidableEq (Except EncodeError ℤ) := fun a b =>
  match a, b with
  | .ok x, .ok y =>
      if h : x = y then .isTrue (by rw [h]) else .isFalse (by simp [h])
  | .error e, .error f =>
      if h : e = f then .isTrue (by rw [h]) else .isFalse (by simp [h])
  | .ok _, .error _ => .isFalse (by simp)
  | .error _, .ok _ => .isFalse (by simp)

/-- The label table built by the first pass: a mapping from label name to
absolute byte address, modelled as an association list (the source uses a
Python `dict`).  `none` for the whole table models the default argument
`label_addresses=None`. -/
abbrev LabelTable := List (String × ℤ)

/-- The closed set of instruction variants of `instruction.py`, each
carrying exactly the operand fields its class stores plus the source
line number. -/
inductive Instruction where
  | move (destination_register : String) (immediate_value : ℤ) (line_number : ℕ)
  | add (destination_register source_register_1 source_register_2 : String)
      (line_number : ℕ)
  | sub (destination_register source_register_1 source_register_2 : String)
      (line_number : ℕ)
  | branch (label : String) (line_number : ℕ)
  deriving DecidableEq

/-- The polymorphic `encode(label_addresses=None, current_address=0)`
operation, one case per variant, translated line by line from
`instruction.py`:

* `MoveInstruction.encode`:
  `(1 << 28) | (int(dest[1:]) << 16) | (imm & 0xFFFF)`;
* `AddInstruction.encode`:
  `(2 << 28) | (int(dest[1:]) << 16) | (int(src1[1:]) << 8) | int(src2[1:])`;
* `SubtractInstruction.encode`: the same with opcode `3`;
* `BranchInstruction.encode`: raises when `label_addresses` is `None` or
  the label is not a key, otherwise
  `(4 << 28) | (((target - current_address - 4) // 4) & 0x0FFFFFFF)`.

Note the source applies no mask to any register number. -/
def Instruction.encode :
    Instruction → Option LabelTable → ℤ → Except EncodeError ℤ
  | .move dr imm _, _, _ =>
      match regNumber dr with
      | none => .error (.invalidRegister dr)
      | some rd =>
          .ok (pyOr (pyOr (pyShl 1 28) (pyShl rd 16)) (pyMask imm 16))
  | .add dr s1 s2 _, _, _ =>
      match regNumber dr with
      | none => .error (.invalidRegister dr)
      | some rd =>
          match regNumber s1 with
          | none => .error (.invalidRegister s1)
          | some rn =>
              match regNumber s2 with
              | none => .error (.invalidRegister s2)
              | some rm =>
                  .ok (pyOr (pyOr (pyOr (pyShl 2 28) (pyShl rd 16))
                    (pyShl rn 8)) rm)
  | .sub dr s1 s2 _, _, _ =>
      match regNumber dr with
      | none => .error (.invalidRegister dr)
      | some rd =>
          match regNumber s1 with
          | none => .error (.invalidRegister s1)
          | some rn =>
              match regNumber s2 with
              | none => .error (.invalidRegister s2)
              | some rm =>
                  .ok (pyOr (pyOr (pyOr (pyShl 3 28) (pyShl rd 16))
                    (pyShl rn 8)) rm)
  | .branch lbl ln, tbl?, addr =>
      match tbl? with
      | none => .error (.unresolvedLabel lbl ln)
      | some tbl =>
          match tbl.lookup lbl with
          | none => .error (.unresolvedLabel lbl ln)
          | some target =>
              .ok (pyOr (pyShl 4 28) (pyMask ((target - addr - 4) / 4) 28))

/-- The opcode tag the spec assigns to each variant:
1 = Move, 2 = Add, 3 = Subtract, 4 = Branch. -/
def Instruction.tag : Instruction → ℤ
  | .move .. => 1
  | .add .. => 2
  | .sub .. => 3
  | .branch .. => 4

/-- The register operands parse and fit the bit fields the spec assigns
them: 12 bits for a destination register, 8 bits for each source
register.  A Branch has no register operand. -/
def Instruction.inRangeOperands : Instruction → Prop
  | .move dr _ _ => ∃ rd, regNumber dr = some rd ∧ 0 ≤ rd ∧ rd < 2 ^ 12
  | .add dr s1 s2 _ =>
      ∃ rd rn rm, regNumber dr = some rd ∧ regNumber s1 = some rn ∧
        regNumber s2 = some rm ∧ 0 ≤ rd ∧ rd < 2 ^ 12 ∧
        0 ≤ rn ∧ rn < 2 ^ 8 ∧ 0 ≤ rm ∧ rm < 2 ^ 8
  | .sub dr s1 s2 _ =>
      ∃ rd rn rm, regNumber dr = some rd ∧ regNumber s1 = some rn ∧
        regNumber s2 = some rm ∧ 0 ≤ rd ∧ rd < 2 ^ 12 ∧
        0 ≤ rn ∧ rn < 2 ^ 8 ∧ 0 ≤ rm ∧ rm < 2 ^ 8
  | .branch .. => True

end Assembler

namespace Assembler

/-! ### Helper lemmas about the Python operations -/

lemma int_lor_natCast (m n : ℕ) : Int.lor (m : ℤ) (n : ℤ) = ((m ||| n : ℕ) : ℤ) :=
  rfl

/-- Bitwise or of a multiple of `2 ^ k` with a `k`-bit value is their
sum: the two operands occupy disjoint bit ranges. -/
lemma pyOr_eq_add {k : ℕ} {a b : ℤ} (ha : 0 ≤ a) (hd : (2 : ℤ) ^ k ∣ a)
    (hb : 0 ≤ b) (hlt : b < 2 ^ k) : pyOr a b = a + b := by
  obtain ⟨c, rfl⟩ := hd
  have hk : (0 : ℤ) < 2 ^ k := by positivity
  have hc : 0 ≤ c := by nlinarith
  lift c to ℕ using hc
  lift b to ℕ using hb
  have hlt' : b < 2 ^ k := by exact_mod_cast hlt
  have hcast : ((2 : ℤ) ^ k * (c : ℤ)) = ((2 ^ k * c : ℕ) : ℤ) := by push_cast; ring
  unfold pyOr
  rw [hcast, int_lor_natCast]
  exact_mod_cast (Nat.mul_add_lt_is_or hlt' c).symm

lemma pyMask_nonneg (a : ℤ) (k : ℕ) : 0 ≤ pyMask a k :=
  Int.emod_nonneg _ (by positivity)

lemma pyMask_lt (a : ℤ) (k : ℕ) : pyMask a k < 2 ^ k :=
  Int.emod_lt_of_pos _ (by positivity)

/-- The Move word, with an in-range register number, is the plain sum of
its fields. -/
lemma move_word_eq {rd : ℤ} (imm : ℤ) (h0 : 0 ≤ rd) (h1 : rd < 2 ^ 12) :
    pyOr (pyOr (pyShl 1 28) (pyShl rd 16)) (pyMask imm 16)
      = 2 ^ 28 + rd * 2 ^ 16 + imm % 2 ^ 16 := by
  have inner : pyOr (pyShl 1 28) (pyShl rd 16) = 2 ^ 28 + rd * 2 ^ 16 := by
    have h := pyOr_eq_add (k := 28) (a := pyShl 1 28) (b := pyShl rd 16)
      (by norm_num [pyShl]) ⟨1, by norm_num [pyShl]⟩
      (by simp only [pyShl]; positivity)
      (by simp only [pyShl]; nlinarith)
    rw [h]; simp only [pyShl]; ring
  rw [inner]
  have h := pyOr_eq_add (k := 16) (a := 2 ^ 28 + rd * 2 ^ 16) (b := pyMask imm 16)
    (by positivity) ⟨2 ^ 12 + rd, by ring⟩
    (pyMask_nonneg imm 16) (pyMask_lt imm 16)
  rw [h]; simp only [pyMask]

/-- The three-register word of Add (`t = 2`) and Subtract (`t = 3`),
with in-range register numbers, is the plain sum of its fields. -/
lemma arith_word_eq {t rd rn rm : ℤ} (ht : 0 ≤ t)
    (h0 : 0 ≤ rd) (h1 : rd < 2 ^ 12) (h2 : 0 ≤ rn) (h3 : rn < 2 ^ 8)
    (h4 : 0 ≤ rm) (h5 : rm < 2 ^ 8) :
    pyOr (pyOr (pyOr (pyShl t 28) (pyShl rd 16)) (pyShl rn 8)) rm
      = t * 2 ^ 28 + rd * 2 ^ 16 + rn * 2 ^ 8 + rm := by
  have s1 : pyOr (pyShl t 28) (pyShl rd 16) = t * 2 ^ 28 + rd * 2 ^ 16 := by
    have h := pyOr_eq_add (k := 28) (a := pyShl t 28) (b := pyShl rd 16)
      (by simp only [pyShl]; positivity) ⟨t, by simp only [pyShl]; ring⟩
      (by simp only [pyShl]; positivity)
      (by simp only [pyShl]; nlinarith)
    rw [h]; simp only [pyShl]
  rw [s1]
  have s2 : pyOr (t * 2 ^ 28 + rd * 2 ^ 16) (pyShl rn 8)
      = t * 2 ^ 28 + rd * 2 ^ 16 + rn * 2 ^ 8 := by
    have h := pyOr_eq_add (k := 16) (a := t * 2 ^ 28 + rd * 2 ^ 16)
      (b := pyShl rn 8)
      (by positivity) ⟨t * 2 ^ 12 + rd, by ring⟩
      (by simp only [pyShl]; positivity)
      (by simp only [pyShl]; nlinarith)
    rw [h]; simp only [pyShl]
  rw [s2]
  have s3 := pyOr_eq_add (k := 8)
    (a := t * 2 ^ 28 + rd * 2 ^ 16 + rn * 2 ^ 8) (b := rm)
    (by positivity) ⟨t * 2 ^ 20 + rd * 2 ^ 8 + rn, by ring⟩ h4 h5
  rw [s3]

/-- The Branch word is the opcode nibble plus the truncated offset. -/
lemma branch_word_eq (off : ℤ) :
    pyOr (pyShl 4 28) (pyMask off 28) = 4 * 2 ^ 28 + off % 2 ^ 28 := by
  have h := pyOr_eq_add (k := 28) (a := pyShl 4 28) (b := pyMask off 28)
    (by norm_num [pyShl]) ⟨4, by norm_num [pyShl]⟩
    (pyMask_nonneg off 28) (pyMask_lt off 28)
  rw [h]; simp only [pyShl, pyMask]

/-! ### Helper lemmas about the register-name parser -/

lemma decDigitsAux_isSome (cs : List Char) (h : ∀ c ∈ cs, c.isDigit) :
    ∀ acc, ∃ n, decDigitsAux cs acc = some n := by
  induction cs with
  | nil => exact fun acc => ⟨acc, rfl⟩
  | cons c cs ih =>
      intro acc
      have hc : c.isDigit := h c (by simp)
      have h' : ∀ x ∈ cs, x.isDigit := fun x hx => h x (by simp [hx])
      simpa [decDigitsAux, hc] using ih h' (acc * 10 + (c.toNat - 48))

/-- A register operand of the conventional shape `R<digits>` parses to a
(non-negative) natural register number. -/
lemma regNumber_digits {name : String} {c : Char} {cs : List Char}
    (hn : name.toList = 'R' :: c :: cs) (hc : c.isDigit)
    (h : ∀ x ∈ cs, x.isDigit) : ∃ n : ℕ, regNumber name = some (n : ℤ) := by
  unfold regNumber
  rw [hn]
  have hdrop : ('R' :: c :: cs).drop 1 = c :: cs := rfl
  rw [hdrop]
  have hne1 : ¬(c = '-') := by rintro rfl; exact absurd hc (by decide)
  have hne2 : ¬(c = '+') := by rintro rfl; exact absurd hc (by decide)
  simp only [pyIntChars, if_neg hne1, if_neg hne2]
  obtain ⟨n, hd⟩ := decDigitsAux_isSome
    (c :: cs) (by
      intro x hx
      rcases List.mem_cons.mp hx with h1 | h2
      · exact h1 ▸ hc
      · exact h x h2) 0
  exact ⟨n, by simp [decDigits, hd]⟩

-- Sanity checks of the embedding on concrete inputs.
example : Instruction.encode (.move "R0" 5 1) none 0 = .ok 0x10000005 := by decide
example : Instruction.encode (.add "R1" "R0" "R0" 2) none 4 = .ok 0x20010000 := by
  decide
example :
    Instruction.encode (.branch "END" 3) (some [("END", 16)]) 8 = .ok 0x40000001 := by
  decide
example : Instruction.encode (.sub "R2" "R1" "R0" 4) none 12 = .ok 0x30020100 := by
  decide
example : Instruction.encode (.move "Rx" 0 1) none 0 =
    .error (.invalidRegister "Rx") := by decide
example : ∃ w, Instruction.encode (.move "R-3" 0 1) none 0 = .ok w := ⟨_, rfl⟩

/-! ### The claims -/

/-- Claim C1: for every Branch instruction whose label is present in the
label table, `encode` returns the word `(4 << 28) | (offset & 0x0FFFFFFF)`
where `offset = (target - self_address - 4) / 4` (floor division); the
word is the opcode nibble plus the offset truncated in two's complement
to 28 bits; and for a label at address `A` and a branch at address `B`,
both multiples of 4, the offset equals `(A - B - 4) / 4` exactly, so `A`
is reconstructed by `offset * 4 + B + 4`. -/
theorem branch_encode_offset (lbl : String) (ln : ℕ) (tbl : LabelTable)
    (A B : ℤ) (hA : tbl.lookup lbl = some A) :
    Instruction.encode (.branch lbl ln) (some tbl) B
        = .ok (pyOr (pyShl 4 28) (pyMask ((A - B - 4) / 4) 28))
    ∧ pyOr (pyShl 4 28) (pyMask ((A - B - 4) / 4) 28)
        = 4 * 2 ^ 28 + ((A - B - 4) / 4) % 2 ^ 28
    ∧ ((4 : ℤ) ∣ A → (4 : ℤ) ∣ B → ((A - B - 4) / 4) * 4 + B + 4 = A) := by
  refine ⟨?_, branch_word_eq _, ?_⟩
  · simp [Instruction.encode, hA]
  · intro h1 h2
    omega

/-- Witness for C1: a branch at address 8 to a label at address 32
encodes offset `(32 - 8 - 4) / 4 = 5`, and `5 * 4 + 8 + 4 = 32`. -/
theorem branch_encode_offset_witness :
    Instruction.encode (.branch "L" 7) (some [("L", 32)]) 8
        = .ok (pyOr (pyShl 4 28) (pyMask (((32 : ℤ) - 8 - 4) / 4) 28))
    ∧ pyOr (pyShl 4 28) (pyMask (((32 : ℤ) - 8 - 4) / 4) 28)
        = 4 * 2 ^ 28 + (((32 : ℤ) - 8 - 4) / 4) % 2 ^ 28
    ∧ (((32 : ℤ) - 8 - 4) / 4) * 4 + 8 + 4 = 32 := by
  have h := branch_encode_offset "L" 7 [("L", 32)] 32 8 (by decide)
  exact ⟨h.1, h.2.1, h.2.2 (by decide) (by decide)⟩

/-- Claim C5: the five-entry program
`MOV R0, #5 / ADD R1, R0, R0 / B END / SUB R2, R1, R0 / END:`, with
instruction addresses 0, 4, 8, 12 and label `END` bound to address 16,
encodes to exactly the words `0x10000005`, `0x20010000`, `0x40000001`,
`0x30020100`, in that order. -/
theorem example_program_words :
    [Instruction.encode (.move "R0" 5 1) (some [("END", 16)]) 0,
     Instruction.encode (.add "R1" "R0" "R0" 2) (some [("END", 16)]) 4,
     Instruction.encode (.branch "END" 3) (some [("END", 16)]) 8,
     Instruction.encode (.sub "R2" "R1" "R0" 4) (some [("END", 16)]) 12]
      = [.ok 0x10000005, .ok 0x20010000, .ok 0x40000001, .ok 0x30020100] := by
  decide

/-- Claim C6: Branch `encode` fails, with an unresolved-label error
carrying the instruction's source line number, exactly when no table is
supplied or the target label is absent from it; when the label is
present, encoding succeeds with the branch word. -/
theorem branch_error_iff (lbl : String) (ln : ℕ) (tbl? : Option LabelTable)
    (addr : ℤ) :
    (Instruction.encode (.branch lbl ln) tbl? addr
        = .error (.unresolvedLabel lbl ln)
      ↔ tbl? = none ∨ ∃ tbl, tbl? = some tbl ∧ tbl.lookup lbl = none)
    ∧ (∀ tbl A, tbl? = some tbl → tbl.lookup lbl = some A →
        Instruction.encode (.branch lbl ln) tbl? addr
          = .ok (pyOr (pyShl 4 28) (pyMask ((A - addr - 4) / 4) 28))) := by
  constructor
  · cases tbl? with
    | none => exact ⟨fun _ => Or.inl rfl, fun _ => rfl⟩
    | some tbl =>
        cases h : tbl.lookup lbl with
        | none =>
            refine ⟨fun _ => Or.inr ⟨tbl, rfl, h⟩, fun _ => ?_⟩
            simp only [Instruction.encode, h]
        | some A =>
            refine ⟨fun heq => ?_, fun hr => ?_⟩
            · simp only [Instruction.encode, h] at heq
              exact Except.noConfusion heq
            · rcases hr with h1 | ⟨tbl', heq, hl⟩
              · exact Option.noConfusion h1
              · injection heq with h2
                subst h2
                rw [h] at hl
                exact Option.noConfusion hl
  · rintro tbl A rfl hA
    simp [Instruction.encode, hA]

/-- Witness for C6: encoding with an empty table fails with the error
carrying line 9, and with the label present it succeeds. -/
theorem branch_error_iff_witness :
    Instruction.encode (.branch "MISSING" 9) (some []) 0
        = .error (.unresolvedLabel "MISSING" 9)
    ∧ Instruction.encode (.branch "L" 9) (some [("L", 0)]) 0
        = .ok (pyOr (pyShl 4 28) (pyMask (((0 : ℤ) - 0 - 4) / 4) 28)) :=
  ⟨(branch_error_iff "MISSING" 9 (some []) 0).1.mpr (Or.inr ⟨[], rfl, rfl⟩),
   (branch_error_iff "L" 9 (some [("L", 0)]) 0).2 [("L", 0)] 0 rfl (by decide)⟩

/-- Claim C10: the Move, Add and Subtract cases of `encode` are
independent of the label table and the current address: any two calls on
the same instruction with arbitrary table and address arguments return
the same result. -/
theorem encode_ignores_table_and_address :
    (∀ (dr : String) (imm : ℤ) (ln : ℕ) (t1 t2 : Option LabelTable)
        (a1 a2 : ℤ),
        Instruction.encode (.move dr imm ln) t1 a1
          = Instruction.encode (.move dr imm ln) t2 a2)
    ∧ (∀ (dr s1 s2 : String) (ln : ℕ) (t1 t2 : Option LabelTable)
        (a1 a2 : ℤ),
        Instruction.encode (.add dr s1 s2 ln) t1 a1
          = Instruction.encode (.add dr s1 s2 ln) t2 a2)
    ∧ (∀ (dr s1 s2 : String) (ln : ℕ) (t1 t2 : Option LabelTable)
        (a1 a2 : ℤ),
        Instruction.encode (.sub dr s1 s2 ln) t1 a1
          = Instruction.encode (.sub dr s1 s2 ln) t2 a2) :=
  ⟨fun _ _ _ _ _ _ _ => rfl, fun _ _ _ _ _ _ _ _ => rfl,
   fun _ _ _ _ _ _ _ _ => rfl⟩

/-- Counterexample to C2: the source applies no `& 0xFFF` mask to the
destination register.  For the operand `"R8192"` (register number 8192,
whose bit 13 spills into bit 29 of the word) the code returns
`0x30000000`, while the claimed masked formula gives `0x10000000`. -/
theorem move_mask_counterexample :
    Instruction.encode (.move "R8192" 0 1) none 0 = .ok 805306368
    ∧ pyOr (pyOr (pyShl 1 28) (pyShl (pyMask 8192 12) 16)) (pyMask 0 16)
        = 268435456
    ∧ (805306368 : ℤ) ≠ 268435456 :=
  ⟨by decide, by decide, by decide⟩

/-- Claim C2 (amended): Move `encode` returns
`(1 << 28) | (rd << 16) | (imm & 0xFFFF)` with the destination register
number `rd` unmasked (the source has no `& 0xFFF`); whenever `rd` fits
the 12-bit field (`0 ≤ rd < 4096`) this coincides with the claimed
masked word. -/
theorem move_encode_unmasked (dr : String) (imm rd : ℤ) (ln : ℕ)
    (tbl? : Option LabelTable) (addr : ℤ) (h : regNumber dr = some rd) :
    Instruction.encode (.move dr imm ln) tbl? addr
        = .ok (pyOr (pyOr (pyShl 1 28) (pyShl rd 16)) (pyMask imm 16))
    ∧ (0 ≤ rd → rd < 2 ^ 12 →
        pyOr (pyOr (pyShl 1 28) (pyShl rd 16)) (pyMask imm 16)
          = pyOr (pyOr (pyShl 1 28) (pyShl (pyMask rd 12) 16))
              (pyMask imm 16)) := by
  refine ⟨by simp [Instruction.encode, h], fun h0 h1 => ?_⟩
  rw [show pyMask rd 12 = rd from Int.emod_eq_of_lt h0 h1]

/-- Witness for C2 (amended) at `MOV R5, #70000`: the immediate 70000
wraps to 16 bits and the in-range register 5 agrees with the masked
formula. -/
theorem move_encode_unmasked_witness :
    Instruction.encode (.move "R5" 70000 1) none 0
        = .ok (pyOr (pyOr (pyShl 1 28) (pyShl 5 16)) (pyMask 70000 16))
    ∧ pyOr (pyOr (pyShl 1 28) (pyShl 5 16)) (pyMask 70000 16)
        = pyOr (pyOr (pyShl 1 28) (pyShl (pyMask 5 12) 16))
            (pyMask 70000 16) := by
  have h := move_encode_unmasked "R5" 70000 5 1 none 0 (by decide)
  exact ⟨h.1, h.2 (by decide) (by decide)⟩

/-- Counterexample to C3: the source applies no `& 0xFF` mask to the
source registers.  For `ADD R0, R256, R0` the code returns `0x20010000`
(register number 256 spills into the destination field), while the
claimed masked formula gives `0x20000000`. -/
theorem arith_mask_counterexample :
    Instruction.encode (.add "R0" "R256" "R0" 1) none 0 = .ok 536936448
    ∧ pyOr (pyOr (pyOr (pyShl 2 28) (pyShl (pyMask 0 12) 16))
          (pyShl (pyMask 256 8) 8)) (pyMask 0 8) = 536870912
    ∧ (536936448 : ℤ) ≠ 536870912 :=
  ⟨by decide, by decide, by decide⟩

/-- Claim C3 (amended): Add and Subtract `encode` return
`(opcode << 28) | (rd << 16) | (rn << 8) | rm` with opcode 2
respectively 3 and no mask on any register number (the source has no
`& 0xFFF` or `& 0xFF`); whenever the register numbers fit their fields
the word coincides with the claimed masked formula. -/
theorem arith_encode_unmasked (dr s1 s2 : String) (ln : ℕ)
    (tbl? : Option LabelTable) (addr : ℤ) (rd rn rm : ℤ)
    (h1 : regNumber dr = some rd) (h2 : regNumber s1 = some rn)
    (h3 : regNumber s2 = some rm) :
    Instruction.encode (.add dr s1 s2 ln) tbl? addr
        = .ok (pyOr (pyOr (pyOr (pyShl 2 28) (pyShl rd 16)) (pyShl rn 8)) rm)
    ∧ Instruction.encode (.sub dr s1 s2 ln) tbl? addr
        = .ok (pyOr (pyOr (pyOr (pyShl 3 28) (pyShl rd 16)) (pyShl rn 8)) rm)
    ∧ (0 ≤ rd → rd < 2 ^ 12 → 0 ≤ rn → rn < 2 ^ 8 → 0 ≤ rm → rm < 2 ^ 8 →
        ∀ t : ℤ,
          pyOr (pyOr (pyOr (pyShl t 28) (pyShl rd 16)) (pyShl rn 8)) rm
            = pyOr (pyOr (pyOr (pyShl t 28) (pyShl (pyMask rd 12) 16))
                (pyShl (pyMask rn 8) 8)) (pyMask rm 8)) := by
  refine ⟨by simp [Instruction.encode, h1, h2, h3],
          by simp [Instruction.encode, h1, h2, h3], ?_⟩
  intro hr0 hr1 hn0 hn1 hm0 hm1 t
  rw [show pyMask rd 12 = rd from Int.emod_eq_of_lt hr0 hr1,
      show pyMask rn 8 = rn from Int.emod_eq_of_lt hn0 hn1,
      show pyMask rm 8 = rm from Int.emod_eq_of_lt hm0 hm1]

/-- Witness for C3 (amended) at `ADD R2, R3, R4` / `SUB R2, R3, R4`
(with the masked-formula agreement instantiated at opcode 2). -/
theorem arith_encode_unmasked_witness :
    Instruction.encode (.add "R2" "R3" "R4" 1) none 0
        = .ok (pyOr (pyOr (pyOr (pyShl 2 28) (pyShl 2 16)) (pyShl 3 8)) 4)
    ∧ Instruction.encode (.sub "R2" "R3" "R4" 1) none 0
        = .ok (pyOr (pyOr (pyOr (pyShl 3 28) (pyShl 2 16)) (pyShl 3 8)) 4)
    ∧ pyOr (pyOr (pyOr (pyShl 2 28) (pyShl 2 16)) (pyShl 3 8)) 4
        = pyOr (pyOr (pyOr (pyShl 2 28) (pyShl (pyMask 2 12) 16))
            (pyShl (pyMask 3 8) 8)) (pyMask 4 8) := by
  have h := arith_encode_unmasked "R2" "R3" "R4" 1 none 0 2 3 4
    (by decide) (by decide) (by decide)
  exact ⟨h.1, h.2.1, h.2.2 (by decide) (by decide) (by decide) (by decide)
    (by decide) (by decide) 2⟩

/-- Counterexample to C4: the operand `"R65536"` is accepted by Move
`encode`, but the returned word `0x110000000` is not a 32-bit value (and
its bits above 28 are not the Move tag 1). -/
theorem word_range_counterexample :
    Instruction.encode (.move "R65536" 0 1) none 0 = .ok 4563402752
    ∧ ¬((4563402752 : ℤ) < 2 ^ 32
        ∧ (4563402752 : ℤ) / 2 ^ 28 = Instruction.tag (.move "R65536" 0 1)) :=
  ⟨by decide, by decide⟩

/-- Claim C4 (amended): restricted to operand assignments whose parsed
register numbers fit their bit fields (a restriction the source does not
enforce), every word returned by `encode` lies in `[0, 2^32)` and its
bits `[31:28]` are the variant's kind tag (1 = Move, 2 = Add,
3 = Subtract, 4 = Branch); for Branch this holds for every label table
and address. -/
theorem word_range_and_tag (i : Instruction) (tbl? : Option LabelTable)
    (addr : ℤ) (w : ℤ) (hin : i.inRangeOperands)
    (henc : i.encode tbl? addr = .ok w) :
    0 ≤ w ∧ w < 2 ^ 32 ∧ w / 2 ^ 28 = i.tag := by
  cases i with
  | move dr imm ln =>
      obtain ⟨rd, hrd, h0, h1⟩ := hin
      simp only [Instruction.encode, hrd] at henc
      injection henc with hw
      rw [← hw, move_word_eq imm h0 h1]
      simp only [Instruction.tag]
      omega
  | add dr s1 s2 ln =>
      obtain ⟨rd, rn, rm, hrd, hrn, hrm, h0, h1, h2, h3, h4, h5⟩ := hin
      simp only [Instruction.encode, hrd, hrn, hrm] at henc
      injection henc with hw
      rw [← hw, arith_word_eq (by norm_num) h0 h1 h2 h3 h4 h5]
      simp only [Instruction.tag]
      omega
  | sub dr s1 s2 ln =>
      obtain ⟨rd, rn, rm, hrd, hrn, hrm, h0, h1, h2, h3, h4, h5⟩ := hin
      simp only [Instruction.encode, hrd, hrn, hrm] at henc
      injection henc with hw
      rw [← hw, arith_word_eq (by norm_num) h0 h1 h2 h3 h4 h5]
      simp only [Instruction.tag]
      omega
  | branch lbl ln =>
      cases tbl? with
      | none => exact Except.noConfusion henc
      | some tbl =>
          cases h : tbl.lookup lbl with
          | none =>
              simp only [Instruction.encode, h] at henc
              exact Except.noConfusion henc
          | some A =>
              simp only [Instruction.encode, h] at henc
              injection henc with hw
              rw [← hw, branch_word_eq]
              simp only [Instruction.tag]
              omega

/-- Witness for C4 (amended) at `MOV R3, #7`, whose word is
`0x10030007 = 268632071`. -/
theorem word_range_and_tag_witness :
    (0 : ℤ) ≤ 268632071 ∧ (268632071 : ℤ) < 2 ^ 32
      ∧ (268632071 : ℤ) / 2 ^ 28 = Instruction.tag (.move "R3" 7 1) :=
  word_range_and_tag (.move "R3" 7 1) none 0 268632071
    ⟨3, by decide, by decide, by decide⟩ (by decide)

/-- Counterexample to C7: the operand `"R-3"` does not match the shape
`R<digits>` (its numeric part is negative), yet Move `encode` accepts it
— the source computes `int("R-3"[1:]) = -3` — instead of failing with an
invalid-register error. -/
theorem register_shape_counterexample :
    (∃ w, Instruction.encode (.move "R-3" 0 1) none 0 = .ok w)
    ∧ ∀ e, Instruction.encode (.move "R-3" 0 1) none 0 ≠ .error e :=
  ⟨⟨_, rfl⟩, fun _ h => Except.noConfusion h⟩

/-- Claim C7 (amended): for Move, Add and Subtract, every register
operand matching the shape `R<digits>` (a non-negative numeric part) is
accepted by `encode`; but an operand that does not match that shape does
not necessarily fail: the source only computes `int(operand[1:])`, so
non-conforming names such as `"R-3"` (parsed as register −3) are
accepted as well. -/
theorem register_shape_accepted (imm : ℤ) (ln : ℕ)
    (tbl? : Option LabelTable) (addr : ℤ) :
    (∀ (dr : String) (c : Char) (cs : List Char),
        dr.toList = 'R' :: c :: cs → c.isDigit → (∀ x ∈ cs, x.isDigit) →
        ∃ w, Instruction.encode (.move dr imm ln) tbl? addr = .ok w)
    ∧ (∀ (dr s1 s2 : String) (c1 c2 c3 : Char) (cs1 cs2 cs3 : List Char),
        dr.toList = 'R' :: c1 :: cs1 → c1.isDigit → (∀ x ∈ cs1, x.isDigit) →
        s1.toList = 'R' :: c2 :: cs2 → c2.isDigit → (∀ x ∈ cs2, x.isDigit) →
        s2.toList = 'R' :: c3 :: cs3 → c3.isDigit → (∀ x ∈ cs3, x.isDigit) →
        (∃ w, Instruction.encode (.add dr s1 s2 ln) tbl? addr = .ok w)
        ∧ (∃ w, Instruction.encode (.sub dr s1 s2 ln) tbl? addr = .ok w)) := by
  constructor
  · intro dr c cs hn hc h
    obtain ⟨n, hd⟩ := regNumber_digits hn hc h
    exact ⟨pyOr (pyOr (pyShl 1 28) (pyShl (n : ℤ) 16)) (pyMask imm 16),
      by simp [Instruction.encode, hd]⟩
  · intro dr s1 s2 c1 c2 c3 cs1 cs2 cs3 hn1 hc1 h1 hn2 hc2 h2 hn3 hc3 h3
    obtain ⟨n1, hd1⟩ := regNumber_digits hn1 hc1 h1
    obtain ⟨n2, hd2⟩ := regNumber_digits hn2 hc2 h2
    obtain ⟨n3, hd3⟩ := regNumber_digits hn3 hc3 h3
    exact ⟨⟨pyOr (pyOr (pyOr (pyShl 2 28) (pyShl (n1 : ℤ) 16))
        (pyShl (n2 : ℤ) 8)) (n3 : ℤ),
        by simp [Instruction.encode, hd1, hd2, hd3]⟩,
      ⟨pyOr (pyOr (pyOr (pyShl 3 28) (pyShl (n1 : ℤ) 16))
        (pyShl (n2 : ℤ) 8)) (n3 : ℤ),
        by simp [Instruction.encode, hd1, hd2, hd3]⟩⟩

/-- Witness for C7 (amended): the conventional operands `R12` and
`R1`, `R2`, `R3` are accepted by Move, Add and Subtract. -/
theorem register_shape_accepted_witness :
    (∃ w, Instruction.encode (.move "R12" 0 3) none 0 = .ok w)
    ∧ (∃ w, Instruction.encode (.add "R1" "R2" "R3" 3) none 0 = .ok w)
    ∧ (∃ w, Instruction.encode (.sub "R1" "R2" "R3" 3) none 0 = .ok w) := by
  have h := register_shape_accepted 0 3 none 0
  have ha := h.2 "R1" "R2" "R3" '1' '2' '3' [] [] []
    (by decide) (by decide) (by decide) (by decide) (by decide) (by decide)
    (by decide) (by decide) (by decide)
  exact ⟨h.1 "R12" '1' ['2'] (by decide) (by decide) (by decide), ha.1, ha.2⟩

/-- Claim C8: for every register operand parsing to an index in 0–15 and
every 16-bit-representable immediate, the Move word round-trips:
`code >> 28 = 1`, `(code >> 16) & 0xFFF = rd` and
`code & 0xFFFF = imm & 0xFFFF`. -/
theorem move_roundtrip (dr : String) (rd imm : ℤ) (ln : ℕ)
    (tbl? : Option LabelTable) (addr : ℤ) (h : regNumber dr = some rd)
    (h0 : 0 ≤ rd) (h15 : rd < 16) (_hi0 : -32768 ≤ imm) (_hi1 : imm ≤ 65535) :
    ∃ w, Instruction.encode (.move dr imm ln) tbl? addr = .ok w
      ∧ pyShr w 28 = 1 ∧ pyMask (pyShr w 16) 12 = rd
      ∧ pyMask w 16 = pyMask imm 16 := by
  have h1 : rd < 2 ^ 12 := lt_trans h15 (by norm_num)
  refine ⟨pyOr (pyOr (pyShl 1 28) (pyShl rd 16)) (pyMask imm 16),
    by simp [Instruction.encode, h], ?_, ?_, ?_⟩ <;>
    rw [move_word_eq imm h0 h1] <;> simp only [pyShr, pyMask] <;> omega

/-- Witness for C8 at `MOV R7, #-5`: the negative immediate wraps to 16
bits and the fields decode back. -/
theorem move_roundtrip_witness :
    ∃ w, Instruction.encode (.move "R7" (-5) 2) none 0 = .ok w
      ∧ pyShr w 28 = 1 ∧ pyMask (pyShr w 16) 12 = 7
      ∧ pyMask w 16 = pyMask (-5) 16 :=
  move_roundtrip "R7" 7 (-5) 2 none 0 (by decide) (by decide) (by decide)
    (by decide) (by decide)

/-- Counterexample to C9: for the operands `("R4096", "R0", "R0")`, on
which both succeed, Add and Subtract return the same word `0x30000000`
(register number 4096 sets bit 28, which the Subtract opcode absorbs),
so Subtract is not Add plus `1 << 28` there. -/
theorem opcode_delta_counterexample :
    Instruction.encode (.add "R4096" "R0" "R0" 1) none 0 = .ok 805306368
    ∧ Instruction.encode (.sub "R4096" "R0" "R0" 1) none 0 = .ok 805306368
    ∧ (805306368 : ℤ) ≠ 805306368 + pyShl 1 28 :=
  ⟨by decide, by decide, by decide⟩

/-- Claim C9 (amended): restricted to register triples whose parsed
numbers fit their bit fields, Subtract's word equals Add's word plus
`1 << 28`: the encodings agree below bit 28 and differ only in the
opcode nibble. -/
theorem sub_add_opcode_delta (dr s1 s2 : String) (ln : ℕ)
    (tbl? : Option LabelTable) (addr : ℤ) (rd rn rm : ℤ)
    (h1 : regNumber dr = some rd) (h2 : regNumber s1 = some rn)
    (h3 : regNumber s2 = some rm) (hr0 : 0 ≤ rd) (hr1 : rd < 2 ^ 12)
    (hn0 : 0 ≤ rn) (hn1 : rn < 2 ^ 8) (hm0 : 0 ≤ rm) (hm1 : rm < 2 ^ 8) :
    ∃ wa ws, Instruction.encode (.add dr s1 s2 ln) tbl? addr = .ok wa
      ∧ Instruction.encode (.sub dr s1 s2 ln) tbl? addr = .ok ws
      ∧ ws = wa + pyShl 1 28 := by
  refine ⟨pyOr (pyOr (pyOr (pyShl 2 28) (pyShl rd 16)) (pyShl rn 8)) rm,
    pyOr (pyOr (pyOr (pyShl 3 28) (pyShl rd 16)) (pyShl rn 8)) rm,
    by simp [Instruction.encode, h1, h2, h3],
    by simp [Instruction.encode, h1, h2, h3], ?_⟩
  rw [arith_word_eq (by norm_num) hr0 hr1 hn0 hn1 hm0 hm1,
      arith_word_eq (by norm_num) hr0 hr1 hn0 hn1 hm0 hm1]
  simp only [pyShl]
  ring

/-- Witness for C9 (amended) at the triple `("R1", "R2", "R3")`. -/
theorem sub_add_opcode_delta_witness :
    ∃ wa ws, Instruction.encode (.add "R1" "R2" "R3" 1) none 0 = .ok wa
      ∧ Instruction.encode (.sub "R1" "R2" "R3" 1) none 0 = .ok ws
      ∧ ws = wa + pyShl 1 28 :=
  sub_add_opcode_delta "R1" "R2" "R3" 1 none 0 1 2 3 (by decide) (by decide)
    (by decide) (by decide) (by decide) (by decide) (by decide) (by decide)
    (by decide)

end Assembler
